import Mathlib

/-!
Shallow embedding of the Hangman game state machine implemented in the
repository's `HangmanGame` React component.  The component keeps its whole
game state in React `useState` hooks; we collect those hooks into a single
`GameState` record and translate each event handler (`onGuess`, `reset`,
`nextWord`, `togglePause`, `toggleMute`) into a pure state transformer.
The `useEffect` that re-evaluates the win/loss status after each change of
`guessed`/`wrong`/`targetWord`/`status` is translated as `evalStatus` and is
composed after every operation that mutates one of those four fields
(React re-runs the effect exactly then).
-/

/-- `type GameStatus = "start" | "playing" | "won" | "lost"` -/
inductive GameStatus where
  | start
  | playing
  | won
  | lost
deriving DecidableEq, Repr

/-- The fixed word list `WORDS` from the source. -/
def WORDS : List String :=
  [ "JAVASCRIPT"
  , "REACT"
  , "HANGMAN"
  , "DEVELOPER"
  , "PROGRAM"
  , "COMPUTER"
  , "ALGORITHM"
  , "FUNCTION"
  , "VARIABLE"
  , "COMPILER" ]

/-- `const MAX_WRONG = 6` -/
def MAX_WRONG : Nat := 6

/-- The `useState` hooks of the component that carry game logic state
(the presentation-only hooks `scale` and the refs are omitted). -/
structure GameState where
  targetWord : String
  guessed : List Char
  wrong : Nat
  status : GameStatus
  isPaused : Bool
  isMuted : Bool
  showSidebar : Bool
  levelIndex : Nat
deriving DecidableEq, Repr

/-- `pickWord(idx)` for a supplied numeric index:
`WORDS[idx % WORDS.length]`.  The index is always in range, so the
JavaScript indexing never yields `undefined`; `getD` with an irrelevant
default is its total counterpart. -/
def pickWord (idx : Nat) : String :=
  WORDS.getD (idx % WORDS.length) ""

/-- `targetWord.split("").every((ch) => guessed.has(ch))` — the win test of
the status-evaluation effect. -/
def hasWon (s : GameState) : Prop :=
  ∀ ch ∈ s.targetWord.data, ch ∈ s.guessed

instance (s : GameState) : Decidable (hasWon s) := by
  unfold hasWon
  infer_instance

/-- The `useEffect` with dependencies `[guessed, wrong, targetWord, status]`:
if the word is set and the round is live, it promotes the status to `won`
(checked first) or `lost` (when `wrong >= MAX_WRONG`). -/
def evalStatus (s : GameState) : GameState :=
  if s.targetWord = "" ∨ s.status ≠ GameStatus.playing then s
  else if hasWon s then { s with status := GameStatus.won }
  else if MAX_WRONG ≤ s.wrong then { s with status := GameStatus.lost }
  else s

/-- The mount-time initialization effect.  The source picks a uniformly
random word; we parametrize that choice by a natural number `i`, mapping it
into the list exactly as `pickWord` does, so every possible random outcome
is some `initState i`.  The derived `levelIndex` is
`WORDS.indexOf(initial)` guarded to `0` when not found, as in the source.
The status effect runs after the mount effect, hence the outer
`evalStatus`. -/
def initState (i : Nat) : GameState :=
  evalStatus
    { targetWord := pickWord i
    , guessed := []
    , wrong := 0
    , status := GameStatus.playing
    , isPaused := false
    , isMuted := false
    , showSidebar := false
    , levelIndex := if pickWord i ∈ WORDS then WORDS.indexOf (pickWord i) else 0 }

/-- `reset()`: clears the round state, keeps `targetWord`, `levelIndex`
and `isMuted`; the status effect re-runs afterwards. -/
def reset (s : GameState) : GameState :=
  evalStatus
    { s with
      guessed := []
    , wrong := 0
    , status := GameStatus.playing
    , isPaused := false
    , showSidebar := false }

/-- `nextWord()`: advances the level index modulo the list length, picks
the word at the new index, and clears the round state; the status effect
re-runs afterwards. -/
def nextWord (s : GameState) : GameState :=
  evalStatus
    { s with
      levelIndex := (s.levelIndex + 1) % WORDS.length
    , targetWord := pickWord ((s.levelIndex + 1) % WORDS.length)
    , guessed := []
    , wrong := 0
    , status := GameStatus.playing
    , isPaused := false
    , showSidebar := false }

/-- `onGuess(letter)`: early-returns when the round is not live, paused,
or the letter was already guessed; otherwise adds the letter and bumps
`wrong` when the word does not contain it.  The status effect re-runs on
the mutating branch only (the early returns change no effect
dependency). -/
def onGuess (letter : Char) (s : GameState) : GameState :=
  if s.status ≠ GameStatus.playing ∨ s.isPaused then s
  else if letter ∈ s.guessed then s
  else
    evalStatus
      { s with
        guessed := s.guessed ++ [letter]
      , wrong := if letter ∈ s.targetWord.data then s.wrong else s.wrong + 1 }

/-- `togglePause()`: flips `isPaused` and drives `showSidebar` to the new
pause flag. -/
def togglePause (s : GameState) : GameState :=
  { s with isPaused := !s.isPaused, showSidebar := !s.isPaused }

/-- `toggleMute()` -/
def toggleMute (s : GameState) : GameState :=
  { s with isMuted := !s.isMuted }

/-- The `display` memo:
`targetWord.split("").map((ch) => (guessed.has(ch) ? ch : "_")).join(" ")`,
with `""` when the word is unset. -/
def display (s : GameState) : String :=
  if s.targetWord = "" then ""
  else
    String.intercalate " "
      (s.targetWord.data.map
        (fun ch => if ch ∈ s.guessed then String.singleton ch else "_"))

/-- The player-triggerable operations of the component. -/
inductive GameAction where
  | guess (letter : Char)
  | reset
  | next
  | pause
  | mute
deriving DecidableEq, Repr

/-- Dispatch an action to the corresponding handler. -/
def stepAction : GameAction → GameState → GameState
  | GameAction.guess c => onGuess c
  | GameAction.reset => reset
  | GameAction.next => nextWord
  | GameAction.pause => togglePause
  | GameAction.mute => toggleMute

/-- Run a sequence of player actions. -/
def runGame (s : GameState) : List GameAction → GameState
  | [] => s
  | a :: acts => runGame (stepAction a s) acts

/-- A state is reachable when some initial random pick followed by some
sequence of player actions produces it. -/
def Reachable (s : GameState) : Prop :=
  ∃ (i : Nat) (acts : List GameAction), runGame (initState i) acts = s

/-! ### The state invariant and its preservation -/

/-- The inductive invariant of the game loop: the level index addresses
the word list, the target word is the addressed word, the wrong count is
bounded, and the status matches the win/loss conditions. -/
def GameInv (s : GameState) : Prop :=
  s.levelIndex < WORDS.length ∧
  s.targetWord = WORDS.getD s.levelIndex "" ∧
  s.wrong ≤ MAX_WRONG ∧
  (s.status = GameStatus.playing ∨ s.status = GameStatus.won ∨
    s.status = GameStatus.lost) ∧
  (s.status = GameStatus.playing → ¬ hasWon s ∧ s.wrong < MAX_WRONG) ∧
  (s.status = GameStatus.won → hasWon s ∧ s.wrong < MAX_WRONG) ∧
  (s.status = GameStatus.lost → s.wrong = MAX_WRONG ∧ ¬ hasWon s)

instance (s : GameState) : Decidable (GameInv s) := by
  unfold GameInv
  infer_instance

lemma words_ne_empty : ∀ w ∈ WORDS, w ≠ "" := by decide

lemma words_data_ne_nil : ∀ w ∈ WORDS, w.data ≠ [] := by decide

lemma getD_mem_WORDS (n : Nat) (h : n < WORDS.length) : WORDS.getD n "" ∈ WORDS := by
  rw [List.getD_eq_getElem _ _ h]
  exact List.getElem_mem h

@[simp] lemma evalStatus_targetWord (s : GameState) :
    (evalStatus s).targetWord = s.targetWord := by
  unfold evalStatus
  split_ifs <;> rfl

@[simp] lemma evalStatus_guessed (s : GameState) :
    (evalStatus s).guessed = s.guessed := by
  unfold evalStatus
  split_ifs <;> rfl

@[simp] lemma evalStatus_wrong (s : GameState) :
    (evalStatus s).wrong = s.wrong := by
  unfold evalStatus
  split_ifs <;> rfl

@[simp] lemma evalStatus_isPaused (s : GameState) :
    (evalStatus s).isPaused = s.isPaused := by
  unfold evalStatus
  split_ifs <;> rfl

@[simp] lemma evalStatus_isMuted (s : GameState) :
    (evalStatus s).isMuted = s.isMuted := by
  unfold evalStatus
  split_ifs <;> rfl

@[simp] lemma evalStatus_showSidebar (s : GameState) :
    (evalStatus s).showSidebar = s.showSidebar := by
  unfold evalStatus
  split_ifs <;> rfl

@[simp] lemma evalStatus_levelIndex (s : GameState) :
    (evalStatus s).levelIndex = s.levelIndex := by
  unfold evalStatus
  split_ifs <;> rfl

lemma not_hasWon_of_empty (s : GameState) (hg : s.guessed = [])
    (hne : s.targetWord.data ≠ []) : ¬ hasWon s := by
  intro hw
  cases hd : s.targetWord.data with
  | nil => exact hne hd
  | cons c cs =>
    have hc : c ∈ s.guessed := hw c (by rw [hd]; exact List.mem_cons_self c cs)
    rw [hg] at hc
    exact absurd hc (List.not_mem_nil c)

lemma GameInv_evalStatus (s : GameState)
    (h1 : s.levelIndex < WORDS.length)
    (h2 : s.targetWord = WORDS.getD s.levelIndex "")
    (h3 : s.wrong ≤ MAX_WRONG)
    (h4 : s.status = GameStatus.playing)
    (h5 : hasWon s → s.wrong < MAX_WRONG) :
    GameInv (evalStatus s) := by
  have hmem : s.targetWord ∈ WORDS := h2 ▸ getD_mem_WORDS _ h1
  have hne : s.targetWord ≠ "" := words_ne_empty _ hmem
  unfold evalStatus
  rw [if_neg (by simp [hne, h4])]
  split_ifs with hwon hlost
  · exact ⟨h1, h2, h3, Or.inr (Or.inl rfl),
      by intro h; exact absurd h (by simp),
      by intro _; exact ⟨hwon, h5 hwon⟩,
      by intro h; exact absurd h (by simp)⟩
  · exact ⟨h1, h2, h3, Or.inr (Or.inr rfl),
      by intro h; exact absurd h (by simp),
      by intro h; exact absurd h (by simp),
      by intro _; exact ⟨Nat.le_antisymm h3 hlost, hwon⟩⟩
  · exact ⟨h1, h2, h3, Or.inl h4,
      by intro _; exact ⟨hwon, Nat.lt_of_le_of_ne h3 (fun he => hlost (Nat.le_of_eq he.symm))⟩,
      by intro h; rw [h4] at h; exact absurd h (by simp),
      by intro h; rw [h4] at h; exact absurd h (by simp)⟩

lemma GameInv_onGuess (c : Char) (s : GameState) (hs : GameInv s) :
    GameInv (onGuess c s) := by
  unfold onGuess
  by_cases hguard : s.status ≠ GameStatus.playing ∨ s.isPaused = true
  · rw [if_pos hguard]
    exact hs
  rw [if_neg hguard]
  by_cases hmem : c ∈ s.guessed
  · rw [if_pos hmem]
    exact hs
  rw [if_neg hmem]
  push_neg at hguard
  obtain ⟨hplay, hpause⟩ := hguard
  obtain ⟨hnw, hwlt⟩ := hs.2.2.2.2.1 hplay
  apply GameInv_evalStatus
  · exact hs.1
  · exact hs.2.1
  · dsimp only
    split_ifs <;> omega
  · exact hplay
  · intro hw
    by_cases hc : c ∈ s.targetWord.data
    · dsimp only
      rw [if_pos hc]
      exact hwlt
    · exfalso
      apply hnw
      intro ch hch
      have hch2 : ch ∈ s.guessed ++ [c] := hw ch hch
      rcases List.mem_append.mp hch2 with h | h
      · exact h
      · rw [List.mem_singleton.mp h] at hch
        exact absurd hch hc

lemma GameInv_reset (s : GameState) (hs : GameInv s) : GameInv (reset s) := by
  unfold reset
  apply GameInv_evalStatus
  · exact hs.1
  · exact hs.2.1
  · simp [MAX_WRONG]
  · rfl
  · intro _
    simp [MAX_WRONG]

lemma GameInv_nextWord (s : GameState) (hs : GameInv s) : GameInv (nextWord s) := by
  have hlen : WORDS.length = 10 := rfl
  unfold nextWord
  apply GameInv_evalStatus
  · simp only []
    rw [hlen]
    omega
  · simp only [pickWord]
    rw [hlen]
    have : (s.levelIndex + 1) % 10 % 10 = (s.levelIndex + 1) % 10 := by omega
    rw [this]
  · simp [MAX_WRONG]
  · rfl
  · intro _
    simp [MAX_WRONG]

lemma GameInv_togglePause (s : GameState) (hs : GameInv s) :
    GameInv (togglePause s) := hs

lemma GameInv_toggleMute (s : GameState) (hs : GameInv s) :
    GameInv (toggleMute s) := hs

lemma GameInv_step (a : GameAction) (s : GameState) (hs : GameInv s) :
    GameInv (stepAction a s) := by
  cases a with
  | guess c => exact GameInv_onGuess c s hs
  | reset => exact GameInv_reset s hs
  | next => exact GameInv_nextWord s hs
  | pause => exact GameInv_togglePause s hs
  | mute => exact GameInv_toggleMute s hs

lemma GameInv_runGame (acts : List GameAction) (s : GameState) (hs : GameInv s) :
    GameInv (runGame s acts) := by
  induction acts generalizing s with
  | nil => exact hs
  | cons a rest ih => exact ih _ (GameInv_step a s hs)

lemma initState_mod (i : Nat) : initState i = initState (i % 10) := by
  have hp : pickWord i = pickWord (i % 10) := by
    unfold pickWord
    have hlen : WORDS.length = 10 := rfl
    rw [hlen]
    have : i % 10 % 10 = i % 10 := by omega
    rw [this]
  unfold initState
  rw [hp]

lemma GameInv_initState_lt (k : Nat) (hk : k < 10) : GameInv (initState k) := by
  interval_cases k <;> decide

lemma GameInv_initState (i : Nat) : GameInv (initState i) := by
  rw [initState_mod]
  exact GameInv_initState_lt _ (Nat.mod_lt _ (by omega))

lemma GameInv_of_Reachable (s : GameState) (h : Reachable s) : GameInv s := by
  obtain ⟨i, acts, rfl⟩ := h
  exact GameInv_runGame acts _ (GameInv_initState i)

lemma runGame_append (s : GameState) (acts : List GameAction) (a : GameAction) :
    runGame s (acts ++ [a]) = stepAction a (runGame s acts) := by
  induction acts generalizing s with
  | nil => rfl
  | cons b bs ih => simpa [runGame] using ih (stepAction b s)

lemma Reachable_step (s : GameState) (a : GameAction) (h : Reachable s) :
    Reachable (stepAction a s) := by
  obtain ⟨i, acts, rfl⟩ := h
  exact ⟨i, acts ++ [a], runGame_append _ acts a⟩

/-! ### Claim theorems -/

/-- C1: in every reachable state after a round starts, `status` is `won`
iff every character of `targetWord` is in the guessed set, `status` is
`lost` iff `wrong ≥ MAX_WRONG` and the word is not fully guessed, and the
status is never `won` and `lost` at the same time. -/
theorem c1_status_invariant (s : GameState) (hr : Reachable s) :
    (s.status = GameStatus.won ↔ hasWon s) ∧
    (s.status = GameStatus.lost ↔ (MAX_WRONG ≤ s.wrong ∧ ¬ hasWon s)) ∧
    ¬ (s.status = GameStatus.won ∧ s.status = GameStatus.lost) := by
  obtain ⟨h1, h2, h3, hst, hp, hw, hl⟩ := GameInv_of_Reachable s hr
  refine ⟨⟨fun h => (hw h).1, fun h => ?_⟩,
          ⟨fun h => ⟨Nat.le_of_eq (hl h).1.symm, (hl h).2⟩, fun h => ?_⟩,
          fun h => ?_⟩
  · rcases hst with h0 | h0 | h0
    · exact absurd h ((hp h0).1)
    · exact h0
    · exact absurd h ((hl h0).2)
  · rcases hst with h0 | h0 | h0
    · have := (hp h0).2
      omega
    · exact absurd ((hw h0).1) h.2
    · exact h0
  · obtain ⟨ha, hb⟩ := h
    rw [ha] at hb
    exact GameStatus.noConfusion hb

/-- Witness for C1 at the freshly initialized state. -/
theorem c1_witness :
    ((initState 0).status = GameStatus.won ↔ hasWon (initState 0)) ∧
    ((initState 0).status = GameStatus.lost ↔
      (MAX_WRONG ≤ (initState 0).wrong ∧ ¬ hasWon (initState 0))) ∧
    ¬ ((initState 0).status = GameStatus.won ∧
       (initState 0).status = GameStatus.lost) :=
  c1_status_invariant (initState 0) ⟨0, [], rfl⟩

/-- C6: guessing a letter already in the guessed set is a no-op on the
whole state (hence neither `wrong` nor the guessed set changes). -/
theorem c6_repeat_guess_noop (s : GameState) (c : Char) (h : c ∈ s.guessed) :
    onGuess c s = s := by
  unfold onGuess
  by_cases hguard : s.status ≠ GameStatus.playing ∨ s.isPaused = true
  · rw [if_pos hguard]
  · rw [if_neg hguard, if_pos h]

/-- Witness for C6: guessing `R` twice on the word `REACT`. -/
theorem c6_witness :
    'R' ∈ (onGuess 'R' (initState 1)).guessed ∧
    onGuess 'R' (onGuess 'R' (initState 1)) = onGuess 'R' (initState 1) :=
  ⟨by decide, c6_repeat_guess_noop _ 'R' (by decide)⟩

/-- C7: while the pause flag is set, `onGuess` leaves the whole state
unchanged, for any letter. -/
theorem c7_paused_guess_noop (s : GameState) (c : Char) (h : s.isPaused = true) :
    onGuess c s = s := by
  unfold onGuess
  rw [if_pos (Or.inr h)]

/-- Witness for C7: guessing `A` right after pausing a fresh round. -/
theorem c7_witness :
    (togglePause (initState 0)).isPaused = true ∧
    onGuess 'A' (togglePause (initState 0)) = togglePause (initState 0) :=
  ⟨by decide, c7_paused_guess_noop _ 'A' (by decide)⟩

lemma targetWord_mem_WORDS (s : GameState) (hr : Reachable s) :
    s.targetWord ∈ WORDS := by
  have h := GameInv_of_Reachable s hr
  exact h.2.1 ▸ getD_mem_WORDS _ h.1

lemma evalStatus_cleared_status (s : GameState)
    (hdata : s.targetWord.data ≠ []) (hg : s.guessed = [])
    (hw : s.wrong = 0) (hst : s.status = GameStatus.playing) :
    (evalStatus s).status = GameStatus.playing := by
  unfold evalStatus
  split_ifs with hguard hwin hlost
  · exact hst
  · exact absurd hwin (not_hasWon_of_empty s hg hdata)
  · rw [hw] at hlost
    exact absurd hlost (by decide)
  · exact hst

lemma reset_status_playing (s : GameState) (hr : Reachable s) :
    (reset s).status = GameStatus.playing := by
  have hdata := words_data_ne_nil _ (targetWord_mem_WORDS s hr)
  unfold reset
  apply evalStatus_cleared_status
  · exact hdata
  · rfl
  · rfl
  · rfl

lemma nextWord_pick_getD (s : GameState) :
    pickWord ((s.levelIndex + 1) % WORDS.length) =
      WORDS.getD ((s.levelIndex + 1) % WORDS.length) "" := by
  have hlen : WORDS.length = 10 := rfl
  unfold pickWord
  rw [hlen]
  have h : (s.levelIndex + 1) % 10 % 10 = (s.levelIndex + 1) % 10 := by omega
  rw [h]

lemma nextWord_pick_mem (s : GameState) :
    pickWord ((s.levelIndex + 1) % WORDS.length) ∈ WORDS := by
  rw [nextWord_pick_getD]
  apply getD_mem_WORDS
  have hlen : WORDS.length = 10 := rfl
  rw [hlen]
  omega

lemma nextWord_status_playing (s : GameState) :
    (nextWord s).status = GameStatus.playing := by
  have hdata := words_data_ne_nil _ (nextWord_pick_mem s)
  unfold nextWord
  apply evalStatus_cleared_status
  · exact hdata
  · rfl
  · rfl
  · rfl

/-- C2: when the round is live, unpaused, and the letter is fresh,
`onGuess` appends the letter to the guessed set, bumps `wrong` exactly
when the word lacks the letter, and re-evaluates the status with the win
check ahead of the loss check. -/
theorem c2_guess_effect (s : GameState) (c : Char) (hr : Reachable s)
    (h1 : s.status = GameStatus.playing) (h2 : s.isPaused = false)
    (h3 : c ∉ s.guessed) :
    (onGuess c s).guessed = s.guessed ++ [c] ∧
    (onGuess c s).wrong =
      (if c ∈ s.targetWord.data then s.wrong else s.wrong + 1) ∧
    (onGuess c s).status =
      (if ∀ ch ∈ s.targetWord.data, ch ∈ s.guessed ++ [c] then GameStatus.won
       else if MAX_WRONG ≤ (if c ∈ s.targetWord.data then s.wrong else s.wrong + 1)
       then GameStatus.lost
       else GameStatus.playing) := by
  have hne : s.targetWord ≠ "" := words_ne_empty _ (targetWord_mem_WORDS s hr)
  have hstep : onGuess c s =
      evalStatus
        { s with
          guessed := s.guessed ++ [c]
        , wrong := if c ∈ s.targetWord.data then s.wrong else s.wrong + 1 } := by
    unfold onGuess
    rw [if_neg (by simp [h1, h2]), if_neg h3]
  refine ⟨?_, ?_, ?_⟩
  · rw [hstep, evalStatus_guessed]
  · rw [hstep, evalStatus_wrong]
  · rw [hstep]
    unfold evalStatus hasWon
    dsimp only
    split_ifs with hguard <;>
      first
      | rfl
      | exact h1
      | (exfalso
         cases hguard with
         | inl h => exact hne h
         | inr h => exact h h1)

/-- Witness for C2: guessing `J` on the fresh word `JAVASCRIPT`. -/
theorem c2_witness :
    Reachable (initState 0) ∧
    (initState 0).status = GameStatus.playing ∧
    (initState 0).isPaused = false ∧
    'J' ∉ (initState 0).guessed ∧
    ((onGuess 'J' (initState 0)).guessed = (initState 0).guessed ++ ['J'] ∧
     (onGuess 'J' (initState 0)).wrong =
       (if 'J' ∈ (initState 0).targetWord.data then (initState 0).wrong
        else (initState 0).wrong + 1) ∧
     (onGuess 'J' (initState 0)).status =
       (if ∀ ch ∈ (initState 0).targetWord.data, ch ∈ (initState 0).guessed ++ ['J']
        then GameStatus.won
        else if MAX_WRONG ≤ (if 'J' ∈ (initState 0).targetWord.data
                             then (initState 0).wrong else (initState 0).wrong + 1)
        then GameStatus.lost
        else GameStatus.playing)) :=
  ⟨⟨0, [], rfl⟩, by decide, by decide, by decide,
   c2_guess_effect (initState 0) 'J' ⟨0, [], rfl⟩ (by decide) (by decide) (by decide)⟩

/-- C4: from any reachable state, `reset` zeroes the wrong count, empties
the guessed set, returns the status to `playing`, clears the pause and
sidebar flags, and keeps the target word and level index. -/
theorem c4_reset_effect (s : GameState) (hr : Reachable s) :
    (reset s).wrong = 0 ∧
    (reset s).guessed = [] ∧
    (reset s).status = GameStatus.playing ∧
    (reset s).isPaused = false ∧
    (reset s).showSidebar = false ∧
    (reset s).targetWord = s.targetWord ∧
    (reset s).levelIndex = s.levelIndex := by
  refine ⟨?_, ?_, reset_status_playing s hr, ?_, ?_, ?_, ?_⟩ <;>
    unfold reset <;>
    simp

/-- Witness for C4 after one wrong guess. -/
theorem c4_witness :
    Reachable (onGuess 'Z' (initState 0)) ∧
    ((reset (onGuess 'Z' (initState 0))).wrong = 0 ∧
     (reset (onGuess 'Z' (initState 0))).guessed = [] ∧
     (reset (onGuess 'Z' (initState 0))).status = GameStatus.playing ∧
     (reset (onGuess 'Z' (initState 0))).isPaused = false ∧
     (reset (onGuess 'Z' (initState 0))).showSidebar = false ∧
     (reset (onGuess 'Z' (initState 0))).targetWord = (onGuess 'Z' (initState 0)).targetWord ∧
     (reset (onGuess 'Z' (initState 0))).levelIndex = (onGuess 'Z' (initState 0)).levelIndex) :=
  ⟨⟨0, [GameAction.guess 'Z'], rfl⟩,
   c4_reset_effect (onGuess 'Z' (initState 0)) ⟨0, [GameAction.guess 'Z'], rfl⟩⟩

/-- C5: from any reachable state, `nextWord` advances the level index by
one modulo the word-list length, installs the word at the new index, and
clears the round state exactly as `reset` does. -/
theorem c5_nextWord_effect (s : GameState) (hr : Reachable s) :
    (nextWord s).levelIndex = (s.levelIndex + 1) % WORDS.length ∧
    (nextWord s).targetWord = WORDS.getD ((s.levelIndex + 1) % WORDS.length) "" ∧
    (nextWord s).wrong = 0 ∧
    (nextWord s).guessed = [] ∧
    (nextWord s).status = GameStatus.playing ∧
    (nextWord s).isPaused = false ∧
    (nextWord s).showSidebar = false := by
  refine ⟨?_, ?_, ?_, ?_, nextWord_status_playing s, ?_, ?_⟩
  · unfold nextWord
    rw [evalStatus_levelIndex]
  · unfold nextWord
    rw [evalStatus_targetWord]
    exact nextWord_pick_getD s
  · unfold nextWord
    rw [evalStatus_wrong]
  · unfold nextWord
    rw [evalStatus_guessed]
  · unfold nextWord
    rw [evalStatus_isPaused]
  · unfold nextWord
    rw [evalStatus_showSidebar]

/-- Witness for C5 on a paused mid-round state. -/
theorem c5_witness :
    Reachable (togglePause (onGuess 'R' (initState 1))) ∧
    ((nextWord (togglePause (onGuess 'R' (initState 1)))).levelIndex =
       ((togglePause (onGuess 'R' (initState 1))).levelIndex + 1) % WORDS.length ∧
     (nextWord (togglePause (onGuess 'R' (initState 1)))).targetWord =
       WORDS.getD (((togglePause (onGuess 'R' (initState 1))).levelIndex + 1) % WORDS.length) "" ∧
     (nextWord (togglePause (onGuess 'R' (initState 1)))).wrong = 0 ∧
     (nextWord (togglePause (onGuess 'R' (initState 1)))).guessed = [] ∧
     (nextWord (togglePause (onGuess 'R' (initState 1)))).status = GameStatus.playing ∧
     (nextWord (togglePause (onGuess 'R' (initState 1)))).isPaused = false ∧
     (nextWord (togglePause (onGuess 'R' (initState 1)))).showSidebar = false) :=
  ⟨⟨1, [GameAction.guess 'R', GameAction.pause], rfl⟩,
   c5_nextWord_effect (togglePause (onGuess 'R' (initState 1)))
     ⟨1, [GameAction.guess 'R', GameAction.pause], rfl⟩⟩

/-- Counterexample to C3 as stated: `reset` after one wrong guess changes
`wrong` from 1 to 0, which is neither "unchanged" nor "+1", so it is false
that `wrong` changes only by +1. -/
theorem c3_counterexample :
    Reachable (onGuess 'Z' (initState 1)) ∧
    (reset (onGuess 'Z' (initState 1))).wrong ≠ (onGuess 'Z' (initState 1)).wrong ∧
    (reset (onGuess 'Z' (initState 1))).wrong ≠ (onGuess 'Z' (initState 1)).wrong + 1 :=
  ⟨⟨1, [GameAction.guess 'Z'], rfl⟩, by decide, by decide⟩

/-- C3 amended: in every reachable state `wrong ≤ MAX_WRONG`, every
operation preserves the bound, and `wrong` either stays, is bumped by
exactly one, or is cleared to zero; a bump happens only on a guess of a
fresh letter absent from the target word while the status is `playing`. -/
theorem c3_wrong_bound (s : GameState) (hr : Reachable s) :
    s.wrong ≤ MAX_WRONG ∧
    ∀ a : GameAction,
      (stepAction a s).wrong ≤ MAX_WRONG ∧
      ((stepAction a s).wrong = s.wrong ∨ (stepAction a s).wrong = s.wrong + 1 ∨
        (stepAction a s).wrong = 0) ∧
      ((stepAction a s).wrong = s.wrong + 1 →
        ∃ c, a = GameAction.guess c ∧ c ∉ s.guessed ∧ c ∉ s.targetWord.data ∧
          s.status = GameStatus.playing) := by
  have hinv := GameInv_of_Reachable s hr
  refine ⟨hinv.2.2.1, fun a => ?_⟩
  refine ⟨(GameInv_of_Reachable _ (Reachable_step s a hr)).2.2.1, ?_⟩
  cases a with
  | guess c =>
    by_cases hguard : s.status ≠ GameStatus.playing ∨ s.isPaused = true
    · have hid : stepAction (GameAction.guess c) s = s := by
        show onGuess c s = s
        unfold onGuess
        rw [if_pos hguard]
      rw [hid]
      exact ⟨Or.inl rfl, fun h => absurd h (by omega)⟩
    · by_cases hmem : c ∈ s.guessed
      · have hid : stepAction (GameAction.guess c) s = s := by
          show onGuess c s = s
          unfold onGuess
          rw [if_neg hguard, if_pos hmem]
        rw [hid]
        exact ⟨Or.inl rfl, fun h => absurd h (by omega)⟩
      · have hplay : s.status = GameStatus.playing :=
          not_ne_iff.mp (not_or.mp hguard).1
        by_cases hc : c ∈ s.targetWord.data
        · have hwr : (stepAction (GameAction.guess c) s).wrong = s.wrong := by
            show (onGuess c s).wrong = s.wrong
            unfold onGuess
            rw [if_neg hguard, if_neg hmem, evalStatus_wrong]
            dsimp only
            rw [if_pos hc]
          rw [hwr]
          exact ⟨Or.inl rfl, fun h => absurd h (by omega)⟩
        · have hwr : (stepAction (GameAction.guess c) s).wrong = s.wrong + 1 := by
            show (onGuess c s).wrong = s.wrong + 1
            unfold onGuess
            rw [if_neg hguard, if_neg hmem, evalStatus_wrong]
            dsimp only
            rw [if_neg hc]
          rw [hwr]
          exact ⟨Or.inr (Or.inl rfl), fun _ => ⟨c, rfl, hmem, hc, hplay⟩⟩
  | reset =>
    have hwr : (stepAction GameAction.reset s).wrong = 0 := by
      show (reset s).wrong = 0
      unfold reset
      rw [evalStatus_wrong]
    rw [hwr]
    exact ⟨Or.inr (Or.inr rfl), fun h => absurd h (by omega)⟩
  | next =>
    have hwr : (stepAction GameAction.next s).wrong = 0 := by
      show (nextWord s).wrong = 0
      unfold nextWord
      rw [evalStatus_wrong]
    rw [hwr]
    exact ⟨Or.inr (Or.inr rfl), fun h => absurd h (by omega)⟩
  | pause =>
    have hwr : (stepAction GameAction.pause s).wrong = s.wrong := rfl
    rw [hwr]
    exact ⟨Or.inl rfl, fun h => absurd h (by omega)⟩
  | mute =>
    have hwr : (stepAction GameAction.mute s).wrong = s.wrong := rfl
    rw [hwr]
    exact ⟨Or.inl rfl, fun h => absurd h (by omega)⟩

/-- Witness for the amended C3 at a fresh round and a wrong guess. -/
theorem c3_witness :
    Reachable (initState 1) ∧
    (initState 1).wrong ≤ MAX_WRONG ∧
    ((stepAction (GameAction.guess 'Q') (initState 1)).wrong ≤ MAX_WRONG ∧
     ((stepAction (GameAction.guess 'Q') (initState 1)).wrong = (initState 1).wrong ∨
      (stepAction (GameAction.guess 'Q') (initState 1)).wrong = (initState 1).wrong + 1 ∨
      (stepAction (GameAction.guess 'Q') (initState 1)).wrong = 0) ∧
     ((stepAction (GameAction.guess 'Q') (initState 1)).wrong = (initState 1).wrong + 1 →
       ∃ c, GameAction.guess 'Q' = GameAction.guess c ∧ c ∉ (initState 1).guessed ∧
         c ∉ (initState 1).targetWord.data ∧ (initState 1).status = GameStatus.playing)) :=
  ⟨⟨1, [], rfl⟩, (c3_wrong_bound (initState 1) ⟨1, [], rfl⟩).1,
   (c3_wrong_bound (initState 1) ⟨1, [], rfl⟩).2 (GameAction.guess 'Q')⟩

lemma step_status_fixed (s : GameState) (h : s.status ≠ GameStatus.playing)
    (a : GameAction) (ha : a ≠ GameAction.reset ∧ a ≠ GameAction.next) :
    (stepAction a s).status = s.status := by
  cases a with
  | guess c =>
    show (onGuess c s).status = s.status
    unfold onGuess
    rw [if_pos (Or.inl h)]
  | reset => exact absurd rfl ha.1
  | next => exact absurd rfl ha.2
  | pause => rfl
  | mute => rfl

lemma runGame_status_fixed (acts : List GameAction) (s : GameState)
    (h : s.status ≠ GameStatus.playing)
    (hall : ∀ a ∈ acts, a ≠ GameAction.reset ∧ a ≠ GameAction.next) :
    (runGame s acts).status = s.status := by
  induction acts generalizing s with
  | nil => rfl
  | cons a rest ih =>
    have hstep := step_status_fixed s h a (hall a (List.mem_cons_self a rest))
    have hrec := ih (stepAction a s) (by rw [hstep]; exact h)
      (fun b hb => hall b (List.mem_cons_of_mem a hb))
    show (runGame (stepAction a s) rest).status = s.status
    rw [hrec, hstep]

/-- C8: `won` and `lost` are terminal for guess/pause/mute sequences, and
`reset` or `nextWord` are the operations that return the status to
`playing`. -/
theorem c8_terminal_states (s : GameState) (hr : Reachable s)
    (hs : s.status = GameStatus.won ∨ s.status = GameStatus.lost) :
    (∀ acts : List GameAction,
        (∀ a ∈ acts, a ≠ GameAction.reset ∧ a ≠ GameAction.next) →
        (runGame s acts).status = s.status) ∧
    (reset s).status = GameStatus.playing ∧
    (nextWord s).status = GameStatus.playing := by
  have hne : s.status ≠ GameStatus.playing := by
    rcases hs with h | h <;> rw [h] <;> exact fun hx => GameStatus.noConfusion hx
  exact ⟨fun acts hall => runGame_status_fixed acts s hne hall,
         reset_status_playing s hr, nextWord_status_playing s⟩

/-- Witness for C8 at a lost round (six wrong guesses on `REACT`),
running a guess, a pause and a mute without leaving `lost`. -/
theorem c8_witness :
    Reachable (runGame (initState 1)
      [GameAction.guess 'Z', GameAction.guess 'X', GameAction.guess 'Q',
       GameAction.guess 'W', GameAction.guess 'B', GameAction.guess 'D']) ∧
    ((runGame (initState 1)
      [GameAction.guess 'Z', GameAction.guess 'X', GameAction.guess 'Q',
       GameAction.guess 'W', GameAction.guess 'B', GameAction.guess 'D']).status =
        GameStatus.won ∨
     (runGame (initState 1)
      [GameAction.guess 'Z', GameAction.guess 'X', GameAction.guess 'Q',
       GameAction.guess 'W', GameAction.guess 'B', GameAction.guess 'D']).status =
        GameStatus.lost) ∧
    (runGame (runGame (initState 1)
      [GameAction.guess 'Z', GameAction.guess 'X', GameAction.guess 'Q',
       GameAction.guess 'W', GameAction.guess 'B', GameAction.guess 'D'])
      [GameAction.guess 'E', GameAction.pause, GameAction.mute]).status =
      (runGame (initState 1)
        [GameAction.guess 'Z', GameAction.guess 'X', GameAction.guess 'Q',
         GameAction.guess 'W', GameAction.guess 'B', GameAction.guess 'D']).status ∧
    (reset (runGame (initState 1)
      [GameAction.guess 'Z', GameAction.guess 'X', GameAction.guess 'Q',
       GameAction.guess 'W', GameAction.guess 'B', GameAction.guess 'D'])).status =
      GameStatus.playing ∧
    (nextWord (runGame (initState 1)
      [GameAction.guess 'Z', GameAction.guess 'X', GameAction.guess 'Q',
       GameAction.guess 'W', GameAction.guess 'B', GameAction.guess 'D'])).status =
      GameStatus.playing :=
  ⟨⟨1, [GameAction.guess 'Z', GameAction.guess 'X', GameAction.guess 'Q',
        GameAction.guess 'W', GameAction.guess 'B', GameAction.guess 'D'], rfl⟩,
   by decide,
   (c8_terminal_states _
     ⟨1, [GameAction.guess 'Z', GameAction.guess 'X', GameAction.guess 'Q',
          GameAction.guess 'W', GameAction.guess 'B', GameAction.guess 'D'], rfl⟩
     (by decide)).1
     [GameAction.guess 'E', GameAction.pause, GameAction.mute] (by decide),
   (c8_terminal_states _
     ⟨1, [GameAction.guess 'Z', GameAction.guess 'X', GameAction.guess 'Q',
          GameAction.guess 'W', GameAction.guess 'B', GameAction.guess 'D'], rfl⟩
     (by decide)).2.1,
   (c8_terminal_states _
     ⟨1, [GameAction.guess 'Z', GameAction.guess 'X', GameAction.guess 'Q',
          GameAction.guess 'W', GameAction.guess 'B', GameAction.guess 'D'], rfl⟩
     (by decide)).2.2⟩

/-- C10: in every reachable state the level index is in range and the
target word is the word-list entry at the level index, and every
operation preserves this correspondence. -/
theorem c10_level_correspondence (s : GameState) (hr : Reachable s) :
    (s.levelIndex < WORDS.length ∧ s.targetWord = WORDS.getD s.levelIndex "") ∧
    ∀ a : GameAction,
      (stepAction a s).levelIndex < WORDS.length ∧
      (stepAction a s).targetWord = WORDS.getD (stepAction a s).levelIndex "" := by
  have h := GameInv_of_Reachable s hr
  refine ⟨⟨h.1, h.2.1⟩, fun a => ?_⟩
  have h2 := GameInv_of_Reachable _ (Reachable_step s a hr)
  exact ⟨h2.1, h2.2.1⟩

/-- Witness for C10 at the fresh state, stepping with `nextWord`. -/
theorem c10_witness :
    Reachable (initState 0) ∧
    ((initState 0).levelIndex < WORDS.length ∧
     (initState 0).targetWord = WORDS.getD (initState 0).levelIndex "") ∧
    ((stepAction GameAction.next (initState 0)).levelIndex < WORDS.length ∧
     (stepAction GameAction.next (initState 0)).targetWord =
       WORDS.getD (stepAction GameAction.next (initState 0)).levelIndex "") :=
  ⟨⟨0, [], rfl⟩,
   (c10_level_correspondence (initState 0) ⟨0, [], rfl⟩).1,
   (c10_level_correspondence (initState 0) ⟨0, [], rfl⟩).2 GameAction.next⟩

/-! ### The display string (C9) -/

/-- Spec-side comparator, following the spec's words: the revealed or
masked characters of the word, joined by single spaces. -/
def joinSpaces : List Char → List Char
  | [] => []
  | [c] => [c]
  | c :: c2 :: rest => c :: ' ' :: joinSpaces (c2 :: rest)

/-- The tail of a space-joined list: a space before each element. -/
def sepTail : List Char → List Char
  | [] => []
  | c :: rest => ' ' :: c :: sepTail rest

lemma joinSpaces_cons (c : Char) (cs : List Char) :
    joinSpaces (c :: cs) = c :: sepTail cs := by
  induction cs generalizing c with
  | nil => rfl
  | cons d ds ih =>
    simp only [joinSpaces, sepTail]
    rw [ih d]

lemma data_append (a b : String) : (a ++ b).data = a.data ++ b.data := rfl

lemma singleton_data (c : Char) : (String.singleton c).data = [c] := rfl

lemma intercalate_go_singleton (cs : List Char) : ∀ acc : String,
    (String.intercalate.go acc " " (cs.map String.singleton)).data =
      acc.data ++ sepTail cs := by
  induction cs with
  | nil =>
    intro acc
    simp [String.intercalate.go, sepTail]
  | cons c rest ih =>
    intro acc
    simp only [List.map_cons]
    show (String.intercalate.go (acc ++ " " ++ String.singleton c) " "
        (rest.map String.singleton)).data = acc.data ++ sepTail (c :: rest)
    rw [ih]
    rw [data_append, data_append, singleton_data]
    have hsp : (" " : String).data = [' '] := rfl
    rw [hsp]
    simp [sepTail, List.append_assoc]

lemma intercalate_singleton_data (cs : List Char) :
    (String.intercalate " " (cs.map String.singleton)).data = joinSpaces cs := by
  cases cs with
  | nil => rfl
  | cons c rest =>
    show (String.intercalate.go (String.singleton c) " "
        (rest.map String.singleton)).data = joinSpaces (c :: rest)
    rw [intercalate_go_singleton, joinSpaces_cons, singleton_data]
    rfl

/-- C9: for a non-empty target word, the display string is the sequence of
the word's characters — each shown as itself when guessed and as an
underscore otherwise — joined by single spaces. -/
theorem c9_display_spec (s : GameState) (h : s.targetWord ≠ "") :
    (display s).data =
      joinSpaces (s.targetWord.data.map
        (fun ch => if ch ∈ s.guessed then ch else '_')) := by
  unfold display
  rw [if_neg h]
  have hfun : (fun ch => if ch ∈ s.guessed then String.singleton ch else "_") =
      (String.singleton ∘ fun ch => if ch ∈ s.guessed then ch else '_') := by
    funext ch
    by_cases hch : ch ∈ s.guessed
    · simp only [Function.comp]
      rw [if_pos hch, if_pos hch]
    · simp only [Function.comp]
      rw [if_neg hch, if_neg hch]
      rfl
  rw [hfun, ← List.map_map]
  exact intercalate_singleton_data _

/-- Witness for C9 after guessing `J` on `JAVASCRIPT`. -/
theorem c9_witness :
    (onGuess 'J' (initState 0)).targetWord ≠ "" ∧
    (display (onGuess 'J' (initState 0))).data =
      joinSpaces ((onGuess 'J' (initState 0)).targetWord.data.map
        (fun ch => if ch ∈ (onGuess 'J' (initState 0)).guessed then ch else '_')) :=
  ⟨by decide, c9_display_spec (onGuess 'J' (initState 0)) (by decide)⟩
